import Mathlib

/-!
Verification of the client-side background-removal pipeline of the RemBg
repository (src/services/backgroundRemovalService.js).

Modelling conventions, used throughout:

* A decoded RGBA pixel buffer is a function `data : Nat → Nat` giving the
  flat channel array of the JavaScript `ImageData`: `data (4*idx)` is the
  red channel of pixel `idx`, `data (4*idx+1)` green, `data (4*idx+2)`
  blue, `data (4*idx+3)` alpha; pixels are row-major, `idx = y*width + x`,
  channel values are 0..255.
* Per-pixel byte arrays (masks, trimaps, alpha mattes, distance maps) are
  likewise functions from `Nat`; the imperative write `a[i] = v` becomes
  the functional update `upd a i v`.  Loops with no cross-iteration data
  flow (each cell written once, only pre-existing arrays read) are
  translated pointwise; loops that read cells written earlier in the same
  sweep (the flood fill, the second pass of `createImprovedMask`, the
  distance-map relaxation) are translated as sequential folds threading
  the updated array in source order.
* JavaScript compares `Math.sqrt e < t` only on nonnegative arguments, so
  the comparison is modelled exactly as `e < t^2` (both sides nonnegative,
  squaring is monotone).  The weights 0.3/0.59/0.11 and the threshold
  multipliers 1.8/1.5/1.3/0.8 of `createImprovedMask` are cleared of
  decimals by scaling the distance by 100: with the source's fixed
  `threshold = 50` the compared thresholds `50`, `50*1.8`, `50*1.5`,
  `50*1.3`, `50*0.8` are the integers 50, 90, 75, 65, 40, and
  `colorDistance(c1,c2) < t` becomes `wdist2 c1 c2 < (100*t)^2`.
* `Math.sqrt` inside the matting formula (`computeAlphaFromColors`) and
  the distance-transform increment `Math.sqrt(dx*dx+dy*dy)` cannot be
  cleared by squaring, so the square-root function (resp. the value of
  `Math.sqrt 2`) is an explicit parameter, constrained in the theorems by
  the facts true of the real square root on the integer arguments the code
  feeds it: `sq 0 = 0`, `0 ≤ sq n`, and `1 ≤ sq n` for `1 ≤ n`.
* `getDominantColor` applied to an empty sample list leaves its
  `dominantKey` equal to the empty string, and decoding it produces
  `{r: NaN, g: undefined, b: undefined}` in JavaScript; this non-color is
  modelled as `none : Option Color`.  Every numeric comparison against a
  component of that value is false in JavaScript (NaN/undefined
  comparisons), which the model mirrors by making every scaled distance
  comparison against a `none` background color return `false`.
-/

/-- Functional update of a byte array modelled as a function: the write
`a[i] = v` of the source. -/
def upd {α : Type} (f : Nat → α) (i : Nat) (v : α) : Nat → α :=
  fun j => if j = i then v else f j

/-- Index list of the JavaScript loop `for (i = a; i < b; i++)`; empty when
`b ≤ a`, exactly as the loop body never runs then. -/
def rng (a b : Nat) : List Nat := (List.range (b - a)).map (a + ·)

/-- An (r,g,b) color triple, channels 0..255. -/
structure Color where
  r : Nat
  g : Nat
  b : Nat
deriving DecidableEq

/-- Pixel `idx` of the flat RGBA array, read as a `Color`. -/
def pix (data : Nat → Nat) (idx : Nat) : Color :=
  ⟨data (4*idx), data (4*idx+1), data (4*idx+2)⟩

/-- Square window of radius `r`: offset pairs `(a,b) ∈ [0,2r]²` listed with
the outer offset first, matching the `dy`/`dx` loop order of the source
(the actual offsets are `a - r`, `b - r`). -/
def winOffs (r : Nat) : List (Nat × Nat) :=
  (List.range (2*r+1)).flatMap (fun a => (List.range (2*r+1)).map (fun b => (a, b)))

/-- Count of the cells among the first `n` of a byte array holding the
value `v`. -/
def cnt (f : Nat → Nat) (n v : Nat) : Nat :=
  ((Finset.range n).filter (fun i => f i = v)).card

/-! ### Color distances

`colorDistance` (line 421) is the plain Euclidean RGB distance used by the
matting path; the local `colorDistance` of `createImprovedMask` (line 725)
is the weighted variant.  Both are represented by their squares. -/

/-- Squared Euclidean RGB distance (`colorDistance`, line 421, squared). -/
def edist2 (r1 g1 b1 r2 g2 b2 : Nat) : Nat :=
  ((((r1:Int) - r2)^2 + ((g1:Int) - g2)^2 + (((b1:Int) - b2))^2)).toNat

/-- Square of 100 times the weighted color distance of `createImprovedMask`
(line 725): `100^2 * (((r1-r2)*0.3)^2 + ((g1-g2)*0.59)^2 + ((b1-b2)*0.11)^2)`. -/
def wdist2 (r1 g1 b1 r2 g2 b2 : Nat) : Int :=
  (30*((r1:Int) - r2))^2 + (59*((g1:Int) - g2))^2 + (11*((b1:Int) - b2))^2

/-- The comparison `colorDistance(r1,g1,b1,r2,g2,b2) < t` of
`createImprovedMask`, scaled by 100 and squared (exact, as both sides are
nonnegative). -/
def wdistLt (r1 g1 b1 r2 g2 b2 t : Nat) : Bool :=
  wdist2 r1 g1 b1 r2 g2 b2 < ((100*t : Int))^2

/-- Distance-to-background comparison; `none` models the NaN/undefined
background color produced by `getDominantColor` on an empty sample list,
for which every JavaScript comparison is false. -/
def bgDistLt (bg : Option Color) (r g b t : Nat) : Bool :=
  match bg with
  | none => false
  | some c => wdistLt r g b c.r c.g c.b t

/-! ### Trimap builder (`createTrimap`, lines 129-169)

The segmentation data (0 = background, nonzero = person) is first
converted to 0/255, then every interior pixel whose radius-3 neighborhood
(excluding the center) contains a differing label is marked 128.  The scan
covers `y,x ∈ [3, height-3) × [3, width-3)`; the written array `expanded`
is never read by the loop, so it is translated pointwise. -/

/-- Conversion of the segmentation data to known labels:
`trimap[i] = segmentationData[i] === 0 ? 0 : 255`. -/
def trimapBase (seg : Nat → Nat) : Nat → Nat :=
  fun i => if seg i = 0 then 0 else 255

/-- Boundary test of `createTrimap` at pixel `(x,y)`: some cell of the 7×7
window other than the center (offset `(3,3)`, skipped by
`if (dx === 0 && dy === 0) continue`) holds a differing label. -/
def nearBoundary (t : Nat → Nat) (w x y : Nat) : Bool :=
  (winOffs 3).any (fun p =>
    decide (¬(p.1 = 3 ∧ p.2 = 3)) &&
    decide (t ((y - 3 + p.1) * w + (x - 3 + p.2)) ≠ t (y * w + x)))

/-- Trimap construction of `createTrimap`: known labels 0/255 from the
segmentation, then interior pixels near a boundary become 128; every pixel
within 3 of the buffer edge keeps its converted label. -/
def createTrimap (seg : Nat → Nat) (w h : Nat) : Nat → Nat :=
  fun idx =>
    if 3 ≤ idx % w ∧ idx % w < w - 3 ∧ 3 ≤ idx / w ∧ idx / w < h - 3 then
      if nearBoundary (trimapBase seg) w (idx % w) (idx / w) then 128
      else trimapBase seg idx
    else trimapBase seg idx

/-! ### Matte estimator (`sampleFgBgColors`, lines 217-267;
`computeAlphaFromColors`, lines 272-286; the computing loop of
`applyAlphaMatting`, lines 189-208) -/

/-- Mean color of a sample list (`Math.floor` of sum over length per
channel), or the given default when the list is empty. -/
def meanColor (l : List Color) (dflt : Color) : Color :=
  match l with
  | [] => dflt
  | _ :: _ =>
    ⟨(l.map Color.r).sum / l.length,
     (l.map Color.g).sum / l.length,
     (l.map Color.b).sum / l.length⟩

/-- Sampling step of `sampleFgBgColors`: a radius-10 window around `(x,y)`
is scanned in `dy`/`dx` order; in-bounds neighbors with trimap label 255
join the foreground samples, label 0 the background samples.  Empty
foreground defaults to black `(0,0,0)`, empty background to white
`(255,255,255)`. -/
def sampleStep (data trimap : Nat → Nat) (x y w h : Nat)
    (acc : List Color × List Color) (p : Nat × Nat) : List Color × List Color :=
  if 0 ≤ (y:Int) + p.1 - 10 ∧ (y:Int) + p.1 - 10 < (h:Int) ∧
      0 ≤ (x:Int) + p.2 - 10 ∧ (x:Int) + p.2 - 10 < (w:Int) then
    if trimap ((((y:Int) + p.1 - 10) * w + ((x:Int) + p.2 - 10)).toNat) = 255 then
      (acc.1 ++ [pix data ((((y:Int) + p.1 - 10) * w + ((x:Int) + p.2 - 10)).toNat)], acc.2)
    else if trimap ((((y:Int) + p.1 - 10) * w + ((x:Int) + p.2 - 10)).toNat) = 0 then
      (acc.1, acc.2 ++ [pix data ((((y:Int) + p.1 - 10) * w + ((x:Int) + p.2 - 10)).toNat)])
    else acc
  else acc

def sampleFgBgColors (data trimap : Nat → Nat) (x y w h : Nat) : Color × Color :=
  let s := (winOffs 10).foldl (sampleStep data trimap x y w h) ([], [])
  (meanColor s.1 ⟨0, 0, 0⟩, meanColor s.2 ⟨255, 255, 255⟩)

/-- Matting equation of `computeAlphaFromColors`, with the square root as
an explicit parameter `sq` applied to the squared Euclidean distances:
alpha `255 * (1 - distToFg/(distToFg+distToBg))` clamped to [0,255], with
the total-distance-below-1 escape to 255. -/
def computeAlphaFromColors (sq : Nat → ℚ) (r g b : Nat) (fg bgc : Color) : ℚ :=
  let distToFg := sq (edist2 r g b fg.r fg.g fg.b)
  let distToBg := sq (edist2 r g b bgc.r bgc.g bgc.b)
  if distToFg + distToBg < 1 then 255
  else max 0 (min 255 (255 * (1 - distToFg / (distToFg + distToBg))))

/-- Alpha matte before smoothing (the `alpha` array of `applyAlphaMatting`
after its computing loop): known background 0, known foreground 255,
in-range unknown pixels get the clamped computed alpha (the store into the
`Uint8Array` truncates, i.e. takes the floor of the clamped value), any
other label keeps the initialisation value 128. -/
def matteAlpha (sq : Nat → ℚ) (data trimap : Nat → Nat) (w h : Nat) : Nat → Nat :=
  fun idx =>
    if trimap idx = 0 then 0
    else if trimap idx = 255 then 255
    else if trimap idx = 128 ∧ idx < w * h then
      Nat.floor (max 0 (min 255 (computeAlphaFromColors sq
        (data (4*idx)) (data (4*idx+1)) (data (4*idx+2))
        (sampleFgBgColors data trimap (idx % w) (idx / w) w h).1
        (sampleFgBgColors data trimap (idx % w) (idx / w) w h).2)))
    else 128

/-! ### Distance map and smooth feathering (`createDistanceMap`,
lines 509-558; `applyMaskWithSmoothAlpha`, lines 484-504)

Distance values are `Option ℚ` with `none` playing `Infinity`; the
relaxation updates in place (Gauss-Seidel style), so the five sweeps are
sequential folds. -/

/-- Addition of a finite increment to a possibly-infinite distance. -/
def oadd : Option ℚ → ℚ → Option ℚ
  | none, _ => none
  | some a, q => some (a + q)

/-- Strict comparison with `none` as `Infinity` (JavaScript float
comparison semantics: anything is `< Infinity` except `Infinity`). -/
def oltB : Option ℚ → Option ℚ → Bool
  | none, _ => false
  | some _, none => true
  | some a, some b => decide (a < b)

/-- The `Math.min` of two possibly-infinite distances. -/
def ominB (a b : Option ℚ) : Option ℚ :=
  if oltB b a then b else a

/-- Edge test seeding the distance map: a mask-255 pixel some in-bounds
3×3 neighbor of which (center excluded) is mask-0. -/
def isEdgeBg (mask : Nat → Nat) (w h x y : Nat) : Bool :=
  (winOffs 1).any (fun p =>
    decide (¬(p.1 = 1 ∧ p.2 = 1)) &&
    (decide (0 ≤ (y:Int) + p.1 - 1 ∧ (y:Int) + p.1 - 1 < (h:Int) ∧
             0 ≤ (x:Int) + p.2 - 1 ∧ (x:Int) + p.2 - 1 < (w:Int)) &&
     decide (mask ((((y:Int) + p.1 - 1) * w + ((x:Int) + p.2 - 1)).toNat) = 0)))

/-- Initial distance map: 0 at foreground pixels adjacent to background,
`Infinity` (`none`) everywhere else. -/
def dmInit (mask : Nat → Nat) (w h : Nat) : Nat → Option ℚ :=
  fun idx =>
    if idx < w * h ∧ mask idx = 255 ∧ isEdgeBg mask w h (idx % w) (idx / w) then some 0
    else none

/-- The increment `Math.sqrt(dx*dx+dy*dy)` of the relaxation, with
`dx,dy ∈ {-1,0,1}`: exactly 0, 1 or the `Math.sqrt 2` parameter `s2`. -/
def dmInc (s2 : ℚ) (p : Nat × Nat) : ℚ :=
  if ((p.1:Int) - 1)^2 + ((p.2:Int) - 1)^2 = 0 then 0
  else if ((p.1:Int) - 1)^2 + ((p.2:Int) - 1)^2 = 1 then 1
  else s2

/-- One candidate of the inner `minDist` scan. -/
def dmMinStep (dm : Nat → Option ℚ) (w x y : Nat) (s2 : ℚ)
    (md : Option ℚ) (p : Nat × Nat) : Option ℚ :=
  if oltB (oadd (dm ((y - 1 + p.1) * w + (x - 1 + p.2))) (dmInc s2 p)) md then
    oadd (dm ((y - 1 + p.1) * w + (x - 1 + p.2))) (dmInc s2 p)
  else md

/-- One in-place relaxation update at interior pixel `(x,y)`: if the pixel
is foreground and not a seed, its distance becomes the minimum of itself
and the least neighbor distance plus the increment. -/
def dmRelaxPixel (mask : Nat → Nat) (w : Nat) (s2 : ℚ) (dm : Nat → Option ℚ)
    (x y : Nat) : Nat → Option ℚ :=
  if mask (y * w + x) = 255 ∧ dm (y * w + x) ≠ some 0 then
    upd dm (y * w + x)
      (ominB (dm (y * w + x)) ((winOffs 1).foldl (dmMinStep dm w x y s2) none))
  else dm

/-- One full interior sweep of the relaxation, `y` outer, `x` inner. -/
def dmSweep (mask : Nat → Nat) (w h : Nat) (s2 : ℚ) (dm : Nat → Option ℚ) :
    Nat → Option ℚ :=
  (rng 1 (h-1)).foldl (fun dm y =>
    (rng 1 (w-1)).foldl (fun dm x => dmRelaxPixel mask w s2 dm x y) dm) dm

/-- Distance map of `createDistanceMap`: seeds, then exactly 5 relaxation
sweeps. -/
def createDistanceMap (mask : Nat → Nat) (w h : Nat) (s2 : ℚ) : Nat → Option ℚ :=
  (List.range 5).foldl (fun dm _ => dmSweep mask w h s2 dm) (dmInit mask w h)

/-- Per-pixel feathering transform of `applyMaskWithSmoothAlpha` for
non-background pixels: within distance 2 of the boundary the alpha is
scaled by `min 1 (d/2 * 0.3 + 0.7)` (floored by the `Uint8ClampedArray`
store), at distance ≥ 2 (or unreachable, `Infinity`) it is untouched. -/
def featherAlpha (a : Nat) (d : Option ℚ) : Nat :=
  match d with
  | none => a
  | some q => if q < 2 then Nat.floor ((a:ℚ) * (min 1 (q / 2 * (3/10) + 7/10))) else a

/-- Alpha application of `applyMaskWithSmoothAlpha`: background pixels get
alpha 0, others are feathered by their distance-map value. -/
def applyMaskWithSmoothAlpha (data mask : Nat → Nat) (w h : Nat) (s2 : ℚ) : Nat → Nat :=
  fun j =>
    if j % 4 = 3 ∧ j / 4 < w * h then
      if mask (j / 4) = 0 then 0
      else featherAlpha (data j) (createDistanceMap mask w h s2 (j / 4))
    else data j

/-! ### Morphological smoothing (`smoothMaskEdges`, lines 564-632)

The erosion reads only the input mask and the dilation reads only the
eroded mask, each writing every cell once, so both passes are pointwise. -/

/-- Boundary test over the 3×3 window (the center compares equal to itself
and never triggers, as in the source, which does not skip it). -/
def boundary9 (m : Nat → Nat) (w x y : Nat) : Bool :=
  (winOffs 1).any (fun p =>
    decide (m ((y - 1 + p.1) * w + (x - 1 + p.2)) ≠ m (y * w + x)))

/-- Count of foreground (value 1) cells in the 3×3 window including the
center. -/
def fgCount9 (m : Nat → Nat) (w x y : Nat) : Nat :=
  (winOffs 1).countP (fun p =>
    decide (m ((y - 1 + p.1) * w + (x - 1 + p.2)) = 1))

/-- Erosion pass of `smoothMaskEdges`: an interior foreground boundary
pixel with fewer than 5 of its 9 window cells foreground becomes 0. -/
def erodePass (m : Nat → Nat) (w h : Nat) : Nat → Nat :=
  fun idx =>
    if 1 ≤ idx % w ∧ idx % w < w - 1 ∧ 1 ≤ idx / w ∧ idx / w < h - 1 then
      if boundary9 m w (idx % w) (idx / w) ∧ m idx = 1 ∧
          fgCount9 m w (idx % w) (idx / w) < 5 then 0
      else m idx
    else m idx

/-- Dilation pass of `smoothMaskEdges`, computed on the eroded mask: an
interior background pixel with at least 5 of its 9 window cells foreground
becomes 1. -/
def dilatePass (m : Nat → Nat) (w h : Nat) : Nat → Nat :=
  fun idx =>
    if 1 ≤ idx % w ∧ idx % w < w - 1 ∧ 1 ≤ idx / w ∧ idx / w < h - 1 then
      if m idx = 0 ∧ 5 ≤ fgCount9 m w (idx % w) (idx / w) then 1
      else m idx
    else m idx

/-- Morphological smoothing of `smoothMaskEdges`: one erosion pass, then
one dilation pass on the eroded mask, in that order. -/
def smoothMaskEdges (m : Nat → Nat) (w h : Nat) : Nat → Nat :=
  dilatePass (erodePass m w h) w h

/-! ### Border color sampling (`getBorderColors`, lines 679-716;
`getDominantColor`, lines 841-861) -/

/-- Border color samples: a band of `min 30 (min (w/15) (h/15))` rows and
columns from all four edges, in source order (top rows, bottom rows, left
columns, right columns). -/
def getBorderColors (data : Nat → Nat) (w h : Nat) : List Color :=
  let borderSize := min 30 (min (w / 15) (h / 15))
  ((rng 0 borderSize).flatMap (fun y => (rng 0 w).map (fun x => pix data (y*w+x)))) ++
  ((rng (h - borderSize) h).flatMap (fun y => (rng 0 w).map (fun x => pix data (y*w+x)))) ++
  ((rng 0 h).flatMap (fun y => (rng 0 borderSize).map (fun x => pix data (y*w+x)))) ++
  ((rng 0 h).flatMap (fun y => (rng (w - borderSize) w).map (fun x => pix data (y*w+x))))

/-- Coarse RGB bin of a color, bucket size 20 (the string key
`floor(r/20),floor(g/20),floor(b/20)` modelled as the triple itself, which
the string encodes injectively). -/
def bucketKey (c : Color) : Nat × Nat × Nat :=
  (c.r / 20, c.g / 20, c.b / 20)

/-- Increment of a key's count in the bucket association list, preserving
insertion order exactly as a JavaScript object with non-integer string
keys does; a new key is appended. -/
def addToBuckets (bs : List ((Nat × Nat × Nat) × Nat)) (k : Nat × Nat × Nat) :
    List ((Nat × Nat × Nat) × Nat) :=
  match bs with
  | [] => [(k, 1)]
  | (k0, c) :: rest =>
    if k0 = k then (k0, c + 1) :: rest else (k0, c) :: addToBuckets rest k

/-- Bucket counts of a color list. -/
def mkBuckets (colors : List Color) : List ((Nat × Nat × Nat) × Nat) :=
  colors.foldl (fun bs c => addToBuckets bs (bucketKey c)) []

/-- Scan for the first key of maximal count (`>` keeps the earliest
maximum), starting from `maxCount = 0` and no key, as the source starts
from the empty `dominantKey`. -/
def maxBucket (bs : List ((Nat × Nat × Nat) × Nat)) : Nat × Option (Nat × Nat × Nat) :=
  bs.foldl (fun acc kc => if acc.1 < kc.2 then (kc.2, some kc.1) else acc) (0, none)

/-- Dominant border color: the center of the most frequent bin
(`bin*20 + 10` per channel).  On an empty sample list the source decodes
the empty `dominantKey` into `{r: NaN, g: undefined, b: undefined}`,
modelled as `none`. -/
def getDominantColor (colors : List Color) : Option Color :=
  match (maxBucket (mkBuckets colors)).2 with
  | none => none
  | some (a, b, c) => some ⟨a*20 + 10, b*20 + 10, c*20 + 10⟩

/-! ### Improved mask (`createImprovedMask`, lines 721-835)

The first pass reads only the pixel data and writes each mask cell at most
once, so it folds over pixels from a zero mask; the flood fill and the
second pass read the mask being written, so they thread it. -/

/-- Marking condition of the first pass of `createImprovedMask`: the
pixel's weighted distance to the background color is below the adaptive
threshold, 90 = 50*1.8 on the 30-pixel border band
(`x < 30 || x > width - 30 || y < 30 || y > height - 30`), 50 elsewhere. -/
def firstPassCond (data : Nat → Nat) (w h : Nat) (bg : Option Color) (idx : Nat) : Bool :=
  bgDistLt bg (data (4*idx)) (data (4*idx+1)) (data (4*idx+2))
    (if idx % w < 30 ∨ (w:Int) - 30 < ((idx % w : Nat):Int) ∨ idx / w < 30 ∨
        (h:Int) - 30 < ((idx / w : Nat):Int) then 90 else 50)

/-- First pass of `createImprovedMask`: pixels satisfying the marking
condition (similar to the background color) are marked 1. -/
def firstPassMask (data : Nat → Nat) (w h : Nat) (bg : Option Color) : Nat → Nat :=
  (List.range (w*h)).foldl (fun mask idx =>
    if firstPassCond data w h bg idx then upd mask idx 1
    else mask) (fun _ => 0)

/-- Fuel-indexed explicit-stack flood fill of `createImprovedMask`: pops
`(x,y)`, skips out-of-bounds or visited pixels, and on a color match
(distance to the seed color below 75 = 50*1.5, or to the background color
below 65 = 50*1.3) marks visited and mask and pushes the four neighbors
(the pop order after the pushes is down, up, left, right, as with the
source's array stack).  The state is the pair (visited, mask). -/
def floodStep (data : Nat → Nat) (w h : Nat) (bg : Option Color) (sr sg sb : Nat) :
    Nat → List (Int × Int) → (Nat → Nat) × (Nat → Nat) → (Nat → Nat) × (Nat → Nat)
  | 0, _, st => st
  | _ + 1, [], st => st
  | fuel + 1, (x, y) :: rest, st =>
    if x < 0 ∨ (w:Int) ≤ x ∨ y < 0 ∨ (h:Int) ≤ y then
      floodStep data w h bg sr sg sb fuel rest st
    else
      let idx := (y * w + x).toNat
      if st.1 idx = 1 then floodStep data w h bg sr sg sb fuel rest st
      else if wdistLt (data (4*idx)) (data (4*idx+1)) (data (4*idx+2)) sr sg sb 75 ||
          bgDistLt bg (data (4*idx)) (data (4*idx+1)) (data (4*idx+2)) 65 then
        floodStep data w h bg sr sg sb fuel
          ((x, y - 1) :: (x, y + 1) :: (x - 1, y) :: (x + 1, y) :: rest)
          (upd st.1 idx 1, upd st.2 idx 1)
      else floodStep data w h bg sr sg sb fuel rest st

/-- Flood fill from a seed pixel, with the seed pixel's color captured at
entry and fuel ample for the at most `1 + 4*w*h` pops any run performs. -/
def floodFill (data : Nat → Nat) (w h : Nat) (bg : Option Color)
    (startX startY : Nat) (st : (Nat → Nat) × (Nat → Nat)) :
    (Nat → Nat) × (Nat → Nat) :=
  floodStep data w h bg
    (data (4*(startY * w + startX))) (data (4*(startY * w + startX) + 1))
    (data (4*(startY * w + startX) + 2))
    (4*w*h + 2) [((startX : Int), (startY : Int))] st

/-- Seed stride `Math.max(5, Math.floor(Math.min(width, height) / 20))`. -/
def borderStep (w h : Nat) : Nat :=
  max 5 (min w h / 20)

/-- Seed positions `0, s, 2s, ...` below `n`. -/
def seedIdxs (n s : Nat) : List Nat :=
  (List.range ((n + s - 1) / s)).map (· * s)

/-- Column seed loop: for each sampled `x`, flood from the top border pixel
and then from the bottom border pixel when the current mask marks it 1. -/
def floodSeedsCols (data : Nat → Nat) (w h : Nat) (bg : Option Color)
    (st : (Nat → Nat) × (Nat → Nat)) : (Nat → Nat) × (Nat → Nat) :=
  (seedIdxs w (borderStep w h)).foldl (fun st x =>
    let st1 := if st.2 x = 1 then floodFill data w h bg x 0 st else st
    if st1.2 ((h - 1) * w + x) = 1 then floodFill data w h bg x (h - 1) st1 else st1) st

/-- Row seed loop: for each sampled `y`, flood from the left border pixel
and then from the right border pixel when the current mask marks it 1. -/
def floodSeedsRows (data : Nat → Nat) (w h : Nat) (bg : Option Color)
    (st : (Nat → Nat) × (Nat → Nat)) : (Nat → Nat) × (Nat → Nat) :=
  (seedIdxs h (borderStep w h)).foldl (fun st y =>
    let st1 := if st.2 (y * w) = 1 then floodFill data w h bg 0 y st else st
    if st1.2 (y * w + (w - 1)) = 1 then floodFill data w h bg (w - 1) y st1 else st1) st

/-- Second pass of `createImprovedMask`, reading the mask as it is being
written: a still-unmarked interior pixel becomes 1 when at least 3 of its
4-connected neighbors are marked and its distance to the background color
is below 75 = 50*1.5, or regardless of neighbors when the distance is
below 40 = 50*0.8. -/
def secondPassMask (data : Nat → Nat) (w h : Nat) (bg : Option Color)
    (mask0 : Nat → Nat) : Nat → Nat :=
  (List.range (w*h)).foldl (fun m idx =>
    if m idx = 1 then m
    else
      let x := idx % w
      let y := idx / w
      if 0 < x ∧ x < w - 1 ∧ 0 < y ∧ y < h - 1 then
        if 3 ≤ ([m ((y-1)*w + x), m ((y+1)*w + x), m (y*w + (x-1)), m (y*w + (x+1))].countP
              (fun v => decide (v = 1))) ∧
            bgDistLt bg (data (4*idx)) (data (4*idx+1)) (data (4*idx+2)) 75 then
          upd m idx 1
        else if bgDistLt bg (data (4*idx)) (data (4*idx+1)) (data (4*idx+2)) 40 then
          upd m idx 1
        else m
      else m) mask0

/-- Full `createImprovedMask`: first pass, flood fill from column then row
border seeds (with a shared visited array starting all-zero), second pass. -/
def createImprovedMask (data : Nat → Nat) (w h : Nat) (bg : Option Color) : Nat → Nat :=
  let st := floodSeedsRows data w h bg
    (floodSeedsCols data w h bg ((fun _ => 0), firstPassMask data w h bg))
  secondPassMask data w h bg st.2

/-! ### Mask refinement (`refineAlgorithmMask`, lines 867-916) -/

/-- Modelled from the spec: the function `detectImageEdges`, called by
`refineAlgorithmMask` at line 868, is not defined anywhere in the
repository.  Spec section 4.5 describes the refiner's edge map as "any
pixel whose 3×3 neighborhood contains a differing label", which is exactly
what the repository's `findEdgePixels` (lines 338-365) computes on a mask
over the interior `[1,h-1) × [1,w-1)`; the edge map is modelled that way
(the call site passes the pixel buffer, but only a mask-label edge map
matches the spec's words). -/
def detectImageEdges (mask : Nat → Nat) (w h : Nat) : Nat → Nat :=
  fun idx =>
    if 1 ≤ idx % w ∧ idx % w < w - 1 ∧ 1 ≤ idx / w ∧ idx / w < h - 1 then
      if boundary9 mask w (idx % w) (idx / w) then 1 else 0
    else 0

/-- Count of foreground (value 1) cells in the 5×5 window including the
center; the source's `backgroundCount` is `25` minus this. -/
def fgCount25 (m : Nat → Nat) (w x y : Nat) : Nat :=
  (winOffs 2).countP (fun p =>
    decide (m ((y - 2 + p.1) * w + (x - 2 + p.2)) = 1))

/-- Majority-vote refinement loop of `refineAlgorithmMask` (lines 877-905):
for pixels of the interior `[2,h-2) × [2,w-2)` lying on an edge, the label
is forced to 1 when `fg > 1.5*bg` (i.e. `3*bg < 2*fg`), to 0 when
`bg > 1.5*fg`, and otherwise kept; all reads are from the original mask
and edge map, so the loop is pointwise. -/
def refineVote (mask edges : Nat → Nat) (w h : Nat) : Nat → Nat :=
  fun idx =>
    if 2 ≤ idx % w ∧ idx % w < w - 2 ∧ 2 ≤ idx / w ∧ idx / w < h - 2 then
      if 0 < edges idx then
        if 3 * (25 - fgCount25 mask w (idx % w) (idx / w)) <
            2 * fgCount25 mask w (idx % w) (idx / w) then 1
        else if 3 * fgCount25 mask w (idx % w) (idx / w) <
            2 * (25 - fgCount25 mask w (idx % w) (idx / w)) then 0
        else mask idx
      else mask idx
    else mask idx

/-- Full `refineAlgorithmMask`: edge-aware majority vote, morphological
smoothing, then conversion of the 0/1 labels to alpha bytes 0/255.  The
`data` parameter mirrors the source signature; the modelled edge map reads
the mask (see `detectImageEdges`). -/
def refineAlgorithmMask (data mask : Nat → Nat) (w h : Nat) : Nat → Nat :=
  let _ := data
  let smoothed := smoothMaskEdges (refineVote mask (detectImageEdges mask w h) w h) w h
  fun i => if smoothed i = 1 then 255 else 0

/-- Alpha application of `applyMaskWithFeathering` (lines 921-935):
mask 0 forces alpha 0, mask values strictly between 0 and 255 scale the
alpha by `mask/255` (`Math.floor` of an exact double product, i.e. natural
division), mask 255 keeps the original alpha. -/
def applyMaskWithFeathering (data mask : Nat → Nat) (w h : Nat) : Nat → Nat :=
  fun j =>
    if j % 4 = 3 ∧ j / 4 < w * h then
      if mask (j / 4) = 0 then 0
      else if mask (j / 4) < 255 then data j * mask (j / 4) / 255
      else data j
    else data j

/-- Pixel processing of `improvedAlgorithmBackgroundRemoval` (lines 649-665),
after the external canvas decode: border sampling, dominant background
color, improved mask, refinement, feathered application to the alpha
channel. -/
def improvedAlgorithmCore (data : Nat → Nat) (w h : Nat) : Nat → Nat :=
  let bgColor := getDominantColor (getBorderColors data w h)
  let mask := createImprovedMask data w h bgColor
  let refinedMask := refineAlgorithmMask data mask w h
  applyMaskWithFeathering data refinedMask w h

/-! ### Fallback chain (`removeBackground`, lines 1023-1040, and
`clientSideBackgroundRemoval`, lines 59-124)

The three external attempts (remove.bg API call, BodyPix segmentation,
local heuristic) are modelled by their resolved-or-rejected results as
`Except String String` values; the functions reproduce the try/catch
structure of the source exactly. -/

/-- The error `removeBackground` surfaces when both paths fail:
`new Error(error.message || 'Failed to remove background. Please try
again.')` built from the first (API) error. -/
def fallbackMsg (e : String) : String :=
  if e = "" then "Failed to remove background. Please try again." else e

/-- Control flow of `clientSideBackgroundRemoval`: return the BodyPix
result; on any BodyPix failure return the heuristic
(`improvedAlgorithmBackgroundRemoval`) result, whatever it is. -/
def clientSideBackgroundRemoval (bodyPix heuristic : Except String String) :
    Except String String :=
  match bodyPix with
  | .ok r => .ok r
  | .error _ => heuristic

/-- Control flow of `removeBackground`: return the remove.bg API result;
on failure return the client-side result; when that also fails, surface an
error built from the API error's message. -/
def removeBackground (remote bodyPix heuristic : Except String String) :
    Except String String :=
  match remote with
  | .ok r => .ok r
  | .error e =>
    match clientSideBackgroundRemoval bodyPix heuristic with
    | .ok r => .ok r
    | .error _ => .error (fallbackMsg e)

/-- Success test of a result. -/
def isOkE : Except String String → Bool
  | .ok _ => true
  | .error _ => false

/-! ### Concrete instances used by witnesses and counterexamples -/

/-- Uniform image data: every pixel `(200,200,200)` with alpha 255
(the spec's uniform-color example, usable at any width and height). -/
def dataU : Nat → Nat :=
  fun j => if j % 4 = 3 then 255 else 200

/-- A 6×6 mask holding 1 only at pixel `(1,1)` (index 7). -/
def cexMask : Nat → Nat :=
  fun idx => if idx = 7 then 1 else 0

/-- Segmentation data alternating 0 and 1 by index parity. -/
def segW : Nat → Nat :=
  fun i => i % 2

/-- A trimap that is 128 everywhere. -/
def triAllUnknown : Nat → Nat :=
  fun _ => 128

/-- A square-root stand-in satisfying `sq 0 = 0`, `0 ≤ sq n` and
`1 ≤ sq n` for `1 ≤ n`. -/
def sqW : Nat → ℚ :=
  fun n => if n = 0 then 0 else 1

/-- An 8×8 mask with a lone foreground pixel at `(1,1)` (index 9). -/
def loneMask : Nat → Nat :=
  fun idx => if idx = 9 then 1 else 0

/-- A 4×4 mask that is 255 on the left 2 columns and 0 elsewhere. -/
def halfMask : Nat → Nat :=
  fun idx => if idx % 4 < 2 then 255 else 0

/-- Zero-filled data buffer. -/
def dataZ : Nat → Nat :=
  fun _ => 0

set_option maxRecDepth 40000

/-! ## Generic lemmas -/

theorem foldl_fix {α β : Type} (f : α → β → α) (l : List β) (a : α)
    (h : ∀ b ∈ l, f a b = a) : l.foldl f a = a := by
  induction l with
  | nil => rfl
  | cons x xs ih =>
      simp only [List.foldl_cons, h x (List.mem_cons_self x xs)]
      exact ih (fun b hb => h b (List.mem_cons_of_mem x hb))

theorem foldl_pres {α β : Type} {P : α → Prop} (f : α → β → α) (l : List β)
    (a : α) (h0 : P a) (hs : ∀ x b, P x → P (f x b)) : P (l.foldl f a) := by
  induction l generalizing a with
  | nil => exact h0
  | cons x xs ih => exact ih (f a x) (hs a x h0)

theorem rng_eq_nil (a b : Nat) (h : b ≤ a) : rng a b = [] := by
  unfold rng
  rw [Nat.sub_eq_zero_of_le h]
  rfl

theorem mem_rng (a b j : Nat) : j ∈ rng a b ↔ a ≤ j ∧ j < b := by
  unfold rng
  simp only [List.mem_map, List.mem_range]
  constructor
  · rintro ⟨k, hk, rfl⟩
    omega
  · rintro ⟨h1, h2⟩
    exact ⟨j - a, by omega, by omega⟩

theorem flat_mod (y w x : Nat) (hx : x < w) : (y * w + x) % w = x := by
  rw [Nat.mul_comm y w, Nat.mul_add_mod]
  exact Nat.mod_eq_of_lt hx

theorem flat_div (y w x : Nat) (hx : x < w) : (y * w + x) / w = y := by
  rw [Nat.mul_comm y w, Nat.mul_add_div (by omega : 0 < w)]
  rw [Nat.div_eq_of_lt hx, Nat.add_zero]

theorem alpha_mod (i : Nat) : (4 * i + 3) % 4 = 3 := by omega
theorem alpha_div (i : Nat) : (4 * i + 3) / 4 = i := by omega

theorem upd_eval {α : Type} (f : Nat → α) (i : Nat) (v : α) (j : Nat) :
    upd f i v j = if j = i then v else f j := rfl

/-- Evaluation of a write-once marking fold: folding the conditional write
`if C idx then m[idx] := V idx` over the pixel indices `0..n-1` yields, at
any cell `j`, the written value when `j` is a marked in-range index and
the initial value otherwise. -/
theorem foldl_ite_upd (C : Nat → Bool) (V : Nat → Nat) (n : Nat) (init : Nat → Nat)
    (j : Nat) :
    ((List.range n).foldl (fun m idx => if C idx then upd m idx (V idx) else m) init) j =
      if j < n ∧ C j = true then V j else init j := by
  induction n with
  | zero =>
      rw [if_neg (by omega)]
      rfl
  | succ n ih =>
      rw [List.range_succ, List.foldl_append, List.foldl_cons, List.foldl_nil]
      by_cases hC : C n = true
      · rw [if_pos hC, upd_eval]
        by_cases hj : j = n
        · subst hj
          rw [if_pos rfl, if_pos ⟨Nat.lt_succ_self j, hC⟩]
        · rw [if_neg hj, ih]
          by_cases hcond : j < n ∧ C j = true
          · rw [if_pos hcond, if_pos ⟨by omega, hcond.2⟩]
          · rw [if_neg hcond, if_neg (fun hcon => hcond ⟨by omega, hcon.2⟩)]
      · rw [if_neg hC, ih]
        by_cases hcond : j < n ∧ C j = true
        · rw [if_pos hcond, if_pos ⟨by omega, hcond.2⟩]
        · rw [if_neg hcond, if_neg]
          rintro ⟨h1, h2⟩
          apply hcond
          refine ⟨?_, h2⟩
          rcases Nat.lt_succ_iff_lt_or_eq.mp h1 with hlt | heq
          · exact hlt
          · subst heq
            exact absurd h2 hC

/-- Pointwise value of the first pass: cell `j` is 1 exactly when `j` is an
in-range pixel satisfying the marking condition, 0 otherwise. -/
theorem firstPassMask_eval (data : Nat → Nat) (w h : Nat) (bg : Option Color) (j : Nat) :
    firstPassMask data w h bg j =
      if j < w * h ∧ firstPassCond data w h bg j = true then 1 else 0 :=
  foldl_ite_upd (firstPassCond data w h bg) (fun _ => 1) (w * h) (fun _ => 0) j

/-! ## C5: trimap invariants -/

theorem trimapBase_mem (seg : Nat → Nat) (i : Nat) :
    trimapBase seg i = 0 ∨ trimapBase seg i = 255 := by
  unfold trimapBase
  by_cases h : seg i = 0 <;> simp [h]

theorem createTrimap_mem (seg : Nat → Nat) (w h idx : Nat) :
    createTrimap seg w h idx = 0 ∨ createTrimap seg w h idx = 128 ∨
      createTrimap seg w h idx = 255 := by
  have hbase := trimapBase_mem seg idx
  unfold createTrimap
  split
  · split
    · exact Or.inr (Or.inl rfl)
    · tauto
  · tauto

theorem cnt_partition (f : Nat → Nat) (n : Nat)
    (h : ∀ i < n, f i = 0 ∨ f i = 128 ∨ f i = 255) :
    cnt f n 0 + cnt f n 128 + cnt f n 255 = n := by
  unfold cnt
  classical
  have h1 : (Finset.range n).filter (fun i => f i = 0) ∪
      ((Finset.range n).filter (fun i => f i = 128) ∪
        (Finset.range n).filter (fun i => f i = 255)) = Finset.range n := by
    apply Finset.Subset.antisymm
    · intro i hi
      simp only [Finset.mem_union, Finset.mem_filter] at hi
      rcases hi with ⟨hi, _⟩ | (⟨hi, _⟩ | ⟨hi, _⟩) <;> exact hi
    · intro i hi
      have := h i (Finset.mem_range.mp hi)
      simp only [Finset.mem_union, Finset.mem_filter]
      tauto
  have d1 : Disjoint ((Finset.range n).filter (fun i => f i = 128))
      ((Finset.range n).filter (fun i => f i = 255)) := by
    rw [Finset.disjoint_filter]
    intro i _ h128 h255
    omega
  have d2 : Disjoint ((Finset.range n).filter (fun i => f i = 0))
      (((Finset.range n).filter (fun i => f i = 128)) ∪
        ((Finset.range n).filter (fun i => f i = 255))) := by
    rw [Finset.disjoint_union_right]
    constructor <;> · rw [Finset.disjoint_filter]; intro i _ ha hb; omega
  rw [Nat.add_assoc, ← Finset.card_union_of_disjoint d1,
    ← Finset.card_union_of_disjoint d2, h1, Finset.card_range]

/-- C5: for every input binary mask (segmentation data) and the fixed
dilation radius 3, the trimap holds exactly one of {0, 128, 255} at every
pixel; the three counts sum to width*height; and every pixel within radius
3 of the buffer edge keeps its converted known label (0 for segmentation
value 0, else 255) and is never marked 128. -/
theorem C5_trimap_values_counts_border (seg : Nat → Nat) (w h : Nat) :
    (∀ idx, createTrimap seg w h idx = 0 ∨ createTrimap seg w h idx = 128 ∨
      createTrimap seg w h idx = 255) ∧
    (cnt (createTrimap seg w h) (w*h) 0 + cnt (createTrimap seg w h) (w*h) 128 +
      cnt (createTrimap seg w h) (w*h) 255 = w*h) ∧
    (∀ x y, x < w → y < h → (x < 3 ∨ w - 3 ≤ x ∨ y < 3 ∨ h - 3 ≤ y) →
      createTrimap seg w h (y*w+x) = (if seg (y*w+x) = 0 then 0 else 255) ∧
      createTrimap seg w h (y*w+x) ≠ 128) := by
  refine ⟨fun idx => createTrimap_mem seg w h idx,
    cnt_partition _ _ (fun i _ => createTrimap_mem seg w h i), ?_⟩
  intro x y hx hy hborder
  have hmod := flat_mod y w x hx
  have hdiv := flat_div y w x hx
  have hguard : ¬(3 ≤ (y*w+x) % w ∧ (y*w+x) % w < w - 3 ∧
      3 ≤ (y*w+x) / w ∧ (y*w+x) / w < h - 3) := by
    rw [hmod, hdiv]
    omega
  constructor
  · unfold createTrimap
    rw [if_neg hguard]
    rfl
  · unfold createTrimap
    rw [if_neg hguard]
    unfold trimapBase
    by_cases hs : seg (y*w+x) = 0 <;> simp [hs]

/-- C5 witness: instance of the theorem at the parity segmentation on an
8×8 buffer. -/
theorem C5_witness :
    createTrimap segW 8 8 (2*8+7) = (if segW (2*8+7) = 0 then 0 else 255) ∧
    createTrimap segW 8 8 (2*8+7) ≠ 128 :=
  (C5_trimap_values_counts_border segW 8 8).2.2 7 2 (by decide) (by decide)
    (Or.inr (Or.inl (by decide)))

/-! ## C3: fallback chain of removeBackground -/

/-- C3: whenever the remote attempt and the BodyPix attempt fail,
`removeBackground` returns exactly the heuristic path's result; the overall
call succeeds exactly when any of the three attempts succeeds (so an error
is surfaced only when the remote path and the whole client-side fallback,
heuristic included, fail); and when all three fail the surfaced error is
built from the remote error's message. -/
theorem C3_fallback_transparent :
    (∀ e b r, removeBackground (.error e) (.error b) (.ok r) = .ok r) ∧
    (∀ remote bodyPix heuristic, isOkE (removeBackground remote bodyPix heuristic) =
      (isOkE remote || isOkE bodyPix || isOkE heuristic)) ∧
    (∀ remote bodyPix heuristic, isOkE (clientSideBackgroundRemoval bodyPix heuristic) =
      (isOkE bodyPix || isOkE heuristic) ∧
      (isOkE (removeBackground remote bodyPix heuristic) = false →
        isOkE remote = false ∧ isOkE heuristic = false)) ∧
    (∀ e b f, removeBackground (.error e) (.error b) (.error f) =
      .error (fallbackMsg e)) := by
  refine ⟨fun e b r => rfl, ?_, ?_, fun e b f => rfl⟩
  · intro remote bodyPix heuristic
    cases remote <;> cases bodyPix <;> cases heuristic <;> rfl
  · intro remote bodyPix heuristic
    constructor
    · cases bodyPix <;> cases heuristic <;> rfl
    · intro hfail
      cases remote <;> cases bodyPix <;> cases heuristic <;>
        first
        | exact ⟨rfl, rfl⟩
        | exact absurd hfail (by simp [removeBackground, clientSideBackgroundRemoval, isOkE])

/-! ## C10: the refined mask is binary and feathering is all-or-nothing -/

/-- C10: every entry of the mask returned by `refineAlgorithmMask` is 0 or
255, and `applyMaskWithFeathering` applied to that mask therefore either
forces a pixel's alpha to 0 or keeps it unchanged (its partial-transparency
branch never fires on the heuristic path). -/
theorem C10_refined_mask_binary_feather_all_or_nothing
    (data mask : Nat → Nat) (w h idx : Nat) (hidx : idx < w * h) :
    (refineAlgorithmMask data mask w h idx = 0 ∨
      refineAlgorithmMask data mask w h idx = 255) ∧
    applyMaskWithFeathering data (refineAlgorithmMask data mask w h) w h (4*idx+3) =
      (if refineAlgorithmMask data mask w h idx = 0 then 0 else data (4*idx+3)) := by
  have hval : refineAlgorithmMask data mask w h idx = 0 ∨
      refineAlgorithmMask data mask w h idx = 255 := by
    unfold refineAlgorithmMask
    split <;> simp
  refine ⟨hval, ?_⟩
  unfold applyMaskWithFeathering
  rw [if_pos ⟨alpha_mod idx, by rw [alpha_div idx]; exact hidx⟩, alpha_div idx]
  rcases hval with h0 | h255
  · rw [if_pos h0, if_pos h0]
  · rw [if_neg (by omega), if_neg (by omega), if_neg (by omega)]

/-- C10 witness: instance at the 6×6 lone-pixel mask, pixel 7. -/
theorem C10_witness :
    (refineAlgorithmMask dataU cexMask 6 6 7 = 0 ∨
      refineAlgorithmMask dataU cexMask 6 6 7 = 255) ∧
    applyMaskWithFeathering dataU (refineAlgorithmMask dataU cexMask 6 6) 6 6 (4*7+3) =
      (if refineAlgorithmMask dataU cexMask 6 6 7 = 0 then 0 else dataU (4*7+3)) :=
  C10_refined_mask_binary_feather_all_or_nothing dataU cexMask 6 6 7 (by decide)

/-! ## C1: polarity of the first pass (code bug) -/

/-- C1 (code bug, evaluating the code at the failing input): the first
pass of `createImprovedMask` sets `mask[idx] = 1` exactly when the
weighted distance is BELOW the adaptive threshold (`if (dist <
borderThreshold) mask[idx] = 1`, line 747), i.e. for pixels similar to the
background (its own comment, line 734, calls them "pixels similar to
background"), while the downstream stages (`refineAlgorithmMask` line 912
converts 1 to 255, and `applyMaskWithFeathering` keeps 255 opaque) treat 1
as foreground.  The claim (and the spec) state the converse: 1 marks
pixels with distance ≥ the threshold.  Here, on a 1×1 image whose single
pixel equals the background estimate, the weighted distance is 0 < 50 ≤ 90,
so the claim says the pixel must be marked 0 (background), yet the first
pass (and the whole region grower) marks it 1. -/
theorem C1_first_pass_marks_similar_pixels :
    (∀ data : Nat → Nat, ∀ w h : Nat, ∀ bg : Option Color, ∀ idx : Nat, idx < w * h →
      (firstPassMask data w h bg idx = 1 ↔ firstPassCond data w h bg idx = true)) ∧
    wdist2 200 200 200 200 200 200 = 0 ∧
    firstPassCond dataU 1 1 (some ⟨200, 200, 200⟩) 0 = true ∧
    firstPassMask dataU 1 1 (some ⟨200, 200, 200⟩) 0 = 1 ∧
    createImprovedMask dataU 1 1 (some ⟨200, 200, 200⟩) 0 = 1 := by
  refine ⟨?_, by decide, by decide, by decide, by decide⟩
  intro data w h bg idx hidx
  rw [firstPassMask_eval]
  by_cases hC : firstPassCond data w h bg idx = true
  · rw [if_pos ⟨hidx, hC⟩]
    exact iff_of_true rfl hC
  · rw [if_neg (fun hcon => hC hcon.2)]
    exact iff_of_false (by omega) hC

/-! ## C8: erosion strictly before dilation, with the 5-of-9 rules -/

theorem boundary9_iff (m : Nat → Nat) (w x y : Nat) :
    boundary9 m w x y = true ↔
      ∃ p ∈ winOffs 1, m ((y - 1 + p.1) * w + (x - 1 + p.2)) ≠ m (y * w + x) := by
  unfold boundary9
  rw [List.any_eq_true]
  constructor
  · rintro ⟨p, hp, hdec⟩
    exact ⟨p, hp, of_decide_eq_true hdec⟩
  · rintro ⟨p, hp, hne⟩
    exact ⟨p, hp, decide_eq_true hne⟩

/-- C8: `smoothMaskEdges` applies exactly one erosion pass (an interior
foreground boundary pixel with fewer than 5 of the 9 cells of its 3×3
window foreground becomes background) followed by exactly one dilation
pass computed on the eroded mask (an interior background pixel with at
least 5 of 9 cells foreground becomes foreground), in that order. -/
theorem C8_erode_then_dilate (m : Nat → Nat) (w h x y : Nat)
    (hx1 : 1 ≤ x) (hx2 : x < w - 1) (hy1 : 1 ≤ y) (hy2 : y < h - 1) :
    smoothMaskEdges m w h = dilatePass (erodePass m w h) w h ∧
    (erodePass m w h (y*w+x) =
      if (∃ p ∈ winOffs 1, m ((y - 1 + p.1) * w + (x - 1 + p.2)) ≠ m (y*w+x)) ∧
          m (y*w+x) = 1 ∧ fgCount9 m w x y < 5 then 0
      else m (y*w+x)) ∧
    (smoothMaskEdges m w h (y*w+x) =
      if erodePass m w h (y*w+x) = 0 ∧ 5 ≤ fgCount9 (erodePass m w h) w x y then 1
      else erodePass m w h (y*w+x)) := by
  have hxw : x < w := by omega
  have hmod := flat_mod y w x hxw
  have hdiv := flat_div y w x hxw
  have hguard : 1 ≤ (y*w+x) % w ∧ (y*w+x) % w < w - 1 ∧
      1 ≤ (y*w+x) / w ∧ (y*w+x) / w < h - 1 := by
    rw [hmod, hdiv]
    exact ⟨hx1, hx2, hy1, hy2⟩
  refine ⟨rfl, ?_, ?_⟩
  · show erodePass m w h (y*w+x) = _
    unfold erodePass
    rw [if_pos hguard, hmod, hdiv]
    by_cases hb : boundary9 m w x y = true
    · rw [boundary9_iff] at hb
      by_cases hrest : m (y*w+x) = 1 ∧ fgCount9 m w x y < 5
      · rw [if_pos ⟨(boundary9_iff m w x y).mpr hb, hrest.1, hrest.2⟩,
          if_pos ⟨hb, hrest.1, hrest.2⟩]
      · rw [if_neg (by tauto), if_neg (by tauto)]
    · have hb2 : ¬∃ p ∈ winOffs 1, m ((y - 1 + p.1) * w + (x - 1 + p.2)) ≠ m (y*w+x) := by
        rw [← boundary9_iff]
        exact hb
      rw [if_neg (fun hcon => hb hcon.1), if_neg (fun hcon => hb2 hcon.1)]
  · show dilatePass (erodePass m w h) w h (y*w+x) = _
    unfold dilatePass
    rw [if_pos hguard, hmod, hdiv]

/-- C8 witness: instance at the 8×8 lone-pixel mask, pixel (1,1): the lone
foreground pixel is a boundary pixel with 1 of 9 window cells foreground,
so the erosion removes it and the dilation (0 of 9 foreground) leaves it
background. -/
theorem C8_witness :
    erodePass loneMask 8 8 (1*8+1) = 0 ∧ smoothMaskEdges loneMask 8 8 (1*8+1) = 0 := by
  have h := C8_erode_then_dilate loneMask 8 8 1 1 (by decide) (by decide) (by decide) (by decide)
  constructor
  · rw [h.2.1]
    decide
  · rw [h.2.2]
    decide

/-! ## C4: edge-aware majority vote of the mask refiner (corrected) -/

/-- C4 counterexample to the claim as stated: in the 6×6 mask `cexMask`
the pixel `(1,1)` (index 7) has a 3×3 neighborhood containing a differing
label, so the modelled edge map marks it; the in-bounds part of its 5×5
window holds 1 foreground and 15 background cells (and any out-of-bounds
reads would only add to the background count, as `undefined !== 1` in
JavaScript), so the background count exceeds 1.5 times the foreground
count and the claim forces its label to 0; yet the vote loop of
`refineAlgorithmMask` starts at `x,y = 2` and leaves the pixel's label 1. -/
theorem C4_vote_skips_near_border_edge_pixel :
    detectImageEdges cexMask 6 6 (1*6+1) = 1 ∧
    ((List.range 4).flatMap (fun a => (List.range 4).map (fun b => (a, b)))).countP
      (fun p => decide (cexMask (p.1 * 6 + p.2) = 1)) = 1 ∧
    refineVote cexMask (detectImageEdges cexMask 6 6) 6 6 (1*6+1) = 1 := by
  refine ⟨by decide, by decide, by decide⟩

/-- C4 (amended): the edge map marks exactly the pixels of the interior
`[1,h-1) × [1,w-1)` whose 3×3 neighborhood contains a differing mask
label; the majority vote (foreground iff `fg > 1.5*bg`, i.e. `3*bg <
2*fg`, background iff `bg > 1.5*fg`, else unchanged, over the 5×5 window
of 25 cells) is applied only to edge pixels at least 2 away from every
buffer edge; every pixel outside that scanned interior keeps its original
label. -/
theorem C4_vote_characterization (mask : Nat → Nat) (w h x y : Nat)
    (hx1 : 2 ≤ x) (hx2 : x < w - 2) (hy1 : 2 ≤ y) (hy2 : y < h - 2) :
    (detectImageEdges mask w h (y*w+x) = 1 ↔
      ∃ p ∈ winOffs 1, mask ((y - 1 + p.1) * w + (x - 1 + p.2)) ≠ mask (y*w+x)) ∧
    (refineVote mask (detectImageEdges mask w h) w h (y*w+x) =
      if detectImageEdges mask w h (y*w+x) = 1 then
        if 3 * (25 - fgCount25 mask w x y) < 2 * fgCount25 mask w x y then 1
        else if 3 * fgCount25 mask w x y < 2 * (25 - fgCount25 mask w x y) then 0
        else mask (y*w+x)
      else mask (y*w+x)) ∧
    (∀ x2 y2, x2 < w → y2 < h → (x2 < 2 ∨ w - 2 ≤ x2 ∨ y2 < 2 ∨ h - 2 ≤ y2) →
      refineVote mask (detectImageEdges mask w h) w h (y2*w+x2) = mask (y2*w+x2)) := by
  have hxw : x < w := by omega
  have hmod := flat_mod y w x hxw
  have hdiv := flat_div y w x hxw
  have hedge : detectImageEdges mask w h (y*w+x) =
      if boundary9 mask w x y = true then 1 else 0 := by
    unfold detectImageEdges
    rw [hmod, hdiv, if_pos (by omega)]
  refine ⟨?_, ?_, ?_⟩
  · rw [hedge, ← boundary9_iff]
    by_cases hb : boundary9 mask w x y = true
    · simp [hb]
    · simp [hb]
  · unfold refineVote
    rw [hmod, hdiv, if_pos ⟨hx1, hx2, hy1, hy2⟩, hedge]
    by_cases hb : boundary9 mask w x y = true
    · rw [if_pos hb, if_pos (by omega : (0:Nat) < 1), if_pos (rfl : (1:Nat) = 1)]
    · rw [if_neg hb, if_neg (by omega : ¬(0:Nat) < 0), if_neg (by omega : ¬(0:Nat) = 1)]
  · intro x2 y2 hx2w hy2h hout
    have hmod2 := flat_mod y2 w x2 hx2w
    have hdiv2 := flat_div y2 w x2 hx2w
    unfold refineVote
    rw [hmod2, hdiv2, if_neg (by omega)]

/-- C4 witness: the amended theorem instantiated on the 6×6 lone-pixel mask
at the interior pixel (2,2), an edge pixel whose 5×5 vote (1 foreground,
24 background) forces background. -/
theorem C4_witness :
    refineVote cexMask (detectImageEdges cexMask 6 6) 6 6 (2*6+2) = 0 := by
  have h := C4_vote_characterization cexMask 6 6 2 2 (by decide) (by decide)
    (by decide) (by decide)
  rw [h.2.1]
  decide

/-! ## C9: dominant border color (corrected) -/

/-- C9 counterexample to the claim as stated: a 4×4 buffer has border band
width `min 30 (min (4/15) (4/15)) = 0`, so no border pixel is sampled and
`getDominantColor` decodes the empty `dominantKey`, producing
`{r: NaN, g: undefined, b: undefined}` (modelled `none`) rather than any
default Color with integer components in [0,255]. -/
theorem C9_no_samples_gives_no_default_color :
    getBorderColors dataU 4 4 = [] ∧
    getDominantColor (getBorderColors dataU 4 4) = none := by
  refine ⟨by decide, by decide⟩

theorem foldl_pres_mem {α β : Type} {P : α → Prop} (f : α → β → α) (l : List β)
    (a : α) (h0 : P a) (hs : ∀ x b, b ∈ l → P x → P (f x b)) : P (l.foldl f a) := by
  induction l generalizing a with
  | nil => exact h0
  | cons x xs ih =>
      exact ih (f a x) (hs a x (List.mem_cons_self x xs) h0)
        (fun z b hb hz => hs z b (List.mem_cons_of_mem x hb) hz)

theorem addToBuckets_ne_nil (bs : List ((Nat × Nat × Nat) × Nat)) (k : Nat × Nat × Nat) :
    addToBuckets bs k ≠ [] := by
  cases bs with
  | nil => simp [addToBuckets]
  | cons e rest =>
      unfold addToBuckets
      split <;> simp

theorem addToBuckets_keys (bs : List ((Nat × Nat × Nat) × Nat)) (k k2 : Nat × Nat × Nat)
    (h : k2 ∈ (addToBuckets bs k).map Prod.fst) :
    k2 ∈ bs.map Prod.fst ∨ k2 = k := by
  induction bs with
  | nil => simpa [addToBuckets] using h
  | cons e rest ih =>
      unfold addToBuckets at h
      split at h
      · simp only [List.map_cons, List.mem_cons] at h ⊢
        tauto
      · simp only [List.map_cons, List.mem_cons] at h ⊢
        rcases h with h | h
        · tauto
        · rcases ih h with h2 | h2 <;> tauto

theorem addToBuckets_counts (bs : List ((Nat × Nat × Nat) × Nat)) (k : Nat × Nat × Nat)
    (h : ∀ e ∈ bs, 1 ≤ e.2) : ∀ e ∈ addToBuckets bs k, 1 ≤ e.2 := by
  induction bs with
  | nil =>
      intro e he
      simp only [addToBuckets, List.mem_singleton] at he
      subst he
      exact Nat.le_refl 1
  | cons e0 rest ih =>
      obtain ⟨k0, c0⟩ := e0
      intro e he
      unfold addToBuckets at he
      have hc0 : 1 ≤ c0 := h (k0, c0) (List.mem_cons_self _ _)
      by_cases hk : k0 = k
      · rw [if_pos hk] at he
        rcases List.mem_cons.mp he with rfl | hmem
        · exact Nat.le_trans hc0 (Nat.le_succ c0)
        · exact h e (List.mem_cons_of_mem _ hmem)
      · rw [if_neg hk] at he
        rcases List.mem_cons.mp he with rfl | hmem
        · exact hc0
        · exact ih (fun z hz => h z (List.mem_cons_of_mem _ hz)) e hmem

theorem mkBuckets_ne_nil (colors : List Color) (h : colors ≠ []) :
    mkBuckets colors ≠ [] := by
  cases colors with
  | nil => exact absurd rfl h
  | cons c cs =>
      unfold mkBuckets
      rw [List.foldl_cons]
      exact foldl_pres (P := fun bs => bs ≠ []) _ cs _
        (addToBuckets_ne_nil _ _) (fun x b hx => addToBuckets_ne_nil _ _)

theorem mkBuckets_counts (colors : List Color) :
    ∀ e ∈ mkBuckets colors, 1 ≤ e.2 := by
  unfold mkBuckets
  exact foldl_pres (P := fun bs => ∀ e ∈ bs, 1 ≤ e.2) _ colors []
    (by simp) (fun x b hx => addToBuckets_counts x (bucketKey b) hx)

theorem mkBuckets_keys (colors : List Color) (k : Nat × Nat × Nat)
    (h : k ∈ (mkBuckets colors).map Prod.fst) :
    ∃ c ∈ colors, k = bucketKey c := by
  unfold mkBuckets at h
  have := foldl_pres_mem
    (P := fun bs => k ∈ bs.map Prod.fst → ∃ c ∈ colors, k = bucketKey c)
    (fun bs c => addToBuckets bs (bucketKey c)) colors [] (by simp)
    (fun x b hb hx hmem => by
      rcases addToBuckets_keys x (bucketKey b) k hmem with h2 | h2
      · exact hx h2
      · exact ⟨b, hb, h2⟩)
  exact this h

theorem maxBucket_keeps_some (bs : List ((Nat × Nat × Nat) × Nat))
    (acc : Nat × Option (Nat × Nat × Nat)) (h : acc.2.isSome = true) :
    (bs.foldl (fun acc kc => if acc.1 < kc.2 then (kc.2, some kc.1) else acc) acc).2.isSome = true := by
  induction bs generalizing acc with
  | nil => exact h
  | cons e rest ih =>
      rw [List.foldl_cons]
      apply ih
      split
      · rfl
      · exact h

theorem maxBucket_isSome (bs : List ((Nat × Nat × Nat) × Nat))
    (hpos : ∀ e ∈ bs, 1 ≤ e.2) (hne : bs ≠ []) :
    (maxBucket bs).2.isSome = true := by
  cases bs with
  | nil => exact absurd rfl hne
  | cons e rest =>
      unfold maxBucket
      rw [List.foldl_cons]
      have h1 : (0:Nat) < e.2 := hpos e (List.mem_cons_self e rest)
      rw [if_pos h1]
      exact maxBucket_keeps_some rest _ rfl

theorem maxBucket_mem (bs : List ((Nat × Nat × Nat) × Nat)) (k : Nat × Nat × Nat) :
    ∀ acc : Nat × Option (Nat × Nat × Nat),
      (bs.foldl (fun acc kc => if acc.1 < kc.2 then (kc.2, some kc.1) else acc) acc).2 = some k →
      acc.2 = some k ∨ k ∈ bs.map Prod.fst := by
  induction bs with
  | nil => exact fun acc h => Or.inl h
  | cons e rest ih =>
      intro acc h
      rw [List.foldl_cons] at h
      rcases ih _ h with h2 | h2
      · by_cases hc : acc.1 < e.2
        · rw [if_pos hc] at h2
          simp only [Option.some_inj] at h2
          right
          simp [← h2]
        · rw [if_neg hc] at h2
          exact Or.inl h2
      · right
        exact List.mem_cons_of_mem _ h2

theorem getBorderColors_mem_bound (data : Nat → Nat) (w h : Nat)
    (hdata : ∀ i, data i ≤ 255) :
    ∀ col ∈ getBorderColors data w h, col.r ≤ 255 ∧ col.g ≤ 255 ∧ col.b ≤ 255 := by
  intro col hcol
  unfold getBorderColors at hcol
  simp only [List.mem_append, List.mem_flatMap, List.mem_map] at hcol
  rcases hcol with ((⟨y, _, x, _, rfl⟩ | ⟨y, _, x, _, rfl⟩) | ⟨y, _, x, _, rfl⟩) | ⟨y, _, x, _, rfl⟩ <;>
    exact ⟨hdata _, hdata _, hdata _⟩

theorem getBorderColors_ne_nil (data : Nat → Nat) (w h : Nat)
    (hw : 15 ≤ w) (hh : 15 ≤ h) : getBorderColors data w h ≠ [] := by
  have hbw : 1 ≤ w / 15 := (Nat.one_le_div_iff (by omega)).mpr hw
  have hbh : 1 ≤ h / 15 := (Nat.one_le_div_iff (by omega)).mpr hh
  apply List.ne_nil_of_mem (a := pix data (0*w+0))
  unfold getBorderColors
  simp only [List.mem_append, List.mem_flatMap, List.mem_map]
  left; left; left
  exact ⟨0, (mem_rng _ _ _).mpr ⟨Nat.le_refl 0, by omega⟩,
    0, (mem_rng _ _ _).mpr ⟨Nat.le_refl 0, by omega⟩, rfl⟩

/-- C9 (amended): whenever at least one border pixel is sampled (width and
height both at least 15) and the buffer holds byte values, the dominant
color is a well-defined bin-center Color: each component is `bin*20 + 10`
for the bin of some sampled color, hence an integer congruent to 10 modulo
20 lying in [10, 250]; with an empty border band the result is the
NaN/undefined non-color (`none`, see `C9_no_samples_gives_no_default_color`),
not a default color. -/
theorem C9_dominant_color_well_defined (data : Nat → Nat) (w h : Nat)
    (hw : 15 ≤ w) (hh : 15 ≤ h) (hdata : ∀ i, data i ≤ 255) :
    ∃ c : Color, getDominantColor (getBorderColors data w h) = some c ∧
      c.r % 20 = 10 ∧ 10 ≤ c.r ∧ c.r ≤ 250 ∧
      c.g % 20 = 10 ∧ 10 ≤ c.g ∧ c.g ≤ 250 ∧
      c.b % 20 = 10 ∧ 10 ≤ c.b ∧ c.b ≤ 250 := by
  have hne := getBorderColors_ne_nil data w h hw hh
  have hbne := mkBuckets_ne_nil _ hne
  have hsome := maxBucket_isSome _ (mkBuckets_counts (getBorderColors data w h)) hbne
  rcases Option.isSome_iff_exists.mp hsome with ⟨k, hk⟩
  rcases maxBucket_mem _ k (0, none) (by exact hk) with habs | hmem
  · exact absurd habs (by simp)
  · rcases mkBuckets_keys _ k hmem with ⟨c, hc, rfl⟩
    obtain ⟨hr, hg, hb⟩ := getBorderColors_mem_bound data w h hdata c hc
    refine ⟨⟨c.r/20*20 + 10, c.g/20*20 + 10, c.b/20*20 + 10⟩, ?_, ?_⟩
    · unfold getDominantColor
      rw [hk]
      rfl
    · have hr12 : c.r / 20 ≤ 12 := by omega
      have hg12 : c.g / 20 ≤ 12 := by omega
      have hb12 : c.b / 20 ≤ 12 := by omega
      dsimp only
      refine ⟨by omega, by omega, by omega, by omega, by omega, by omega,
        by omega, by omega, by omega⟩

/-- C9 witness: the amended theorem applied to the all-zero buffer at
15×15. -/
theorem C9_witness :
    (getDominantColor (getBorderColors dataZ 15 15)).isSome = true := by
  obtain ⟨c, hc, _⟩ := C9_dominant_color_well_defined dataZ 15 15
    (by omega) (by omega) (fun i => by simp [dataZ])
  rw [hc]
  rfl

/-! ## C2: uniform-color images (corrected) -/

/-- C2 counterexample to the claim as stated: the 15×15 uniform
`(200,200,200)` image has a nonempty border band; every sample falls in
bin `(10,10,10)`, the background estimate becomes `(210,210,210)`, the
weighted distance of every pixel to it (about 6.7) is far below every
adaptive threshold, so the region grower marks every pixel 1 — which the
downstream stages treat as foreground (1 → 255 → alpha kept), leaving the
final alpha 255 everywhere instead of 0. -/
theorem C2_uniform_15x15_opaque :
    createImprovedMask dataU 15 15 (getDominantColor (getBorderColors dataU 15 15)) 0 = 1 ∧
    improvedAlgorithmCore dataU 15 15 (4*0+3) = 255 ∧
    dataU (4*0+3) = 255 := by
  refine ⟨by decide, by decide, by decide⟩

theorem flatMap_const_nil {α β : Type} (l : List α) :
    (l.flatMap (fun _ => ([] : List β))) = [] := by
  induction l with
  | nil => rfl
  | cons x xs ih => simp [List.flatMap_cons, ih]

theorem getBorderColors_empty (data : Nat → Nat) (w h : Nat)
    (hd : w < 15 ∨ h < 15) : getBorderColors data w h = [] := by
  have hbs : min 30 (min (w / 15) (h / 15)) = 0 := by
    rcases hd with h1 | h1
    · have : w / 15 = 0 := Nat.div_eq_of_lt h1
      omega
    · have : h / 15 = 0 := Nat.div_eq_of_lt h1
      omega
  simp only [getBorderColors, hbs, Nat.sub_zero, rng_eq_nil 0 0 (Nat.le_refl 0),
    rng_eq_nil h h (Nat.le_refl h), rng_eq_nil w w (Nat.le_refl w),
    List.flatMap_nil, List.map_nil, flatMap_const_nil, List.append_nil]

theorem firstPassMask_none (data : Nat → Nat) (w h : Nat) :
    firstPassMask data w h none = fun _ => 0 := by
  unfold firstPassMask
  apply foldl_fix
  intro b hb
  simp [firstPassCond, bgDistLt]

theorem floodSeedsCols_zero (data : Nat → Nat) (w h : Nat) (bg : Option Color)
    (v : Nat → Nat) : floodSeedsCols data w h bg (v, fun _ => 0) = (v, fun _ => 0) := by
  unfold floodSeedsCols
  apply foldl_fix
  intro b hb
  simp

theorem floodSeedsRows_zero (data : Nat → Nat) (w h : Nat) (bg : Option Color)
    (v : Nat → Nat) : floodSeedsRows data w h bg (v, fun _ => 0) = (v, fun _ => 0) := by
  unfold floodSeedsRows
  apply foldl_fix
  intro b hb
  simp

theorem secondPassMask_none (data : Nat → Nat) (w h : Nat) :
    secondPassMask data w h none (fun _ => 0) = fun _ => 0 := by
  unfold secondPassMask
  apply foldl_fix
  intro b hb
  simp [bgDistLt]

theorem createImprovedMask_none (data : Nat → Nat) (w h : Nat) :
    createImprovedMask data w h none = fun _ => 0 := by
  unfold createImprovedMask
  rw [firstPassMask_none, floodSeedsCols_zero, floodSeedsRows_zero]
  exact secondPassMask_none data w h

theorem boundary9_zero (w x y : Nat) : boundary9 (fun _ => 0) w x y = false := by
  unfold boundary9
  rw [List.any_eq_false]
  intro p hp
  simp

theorem fgCount9_zero (w x y : Nat) : fgCount9 (fun _ => 0) w x y = 0 := by
  unfold fgCount9
  rw [List.countP_eq_zero]
  intro p hp
  simp

theorem fgCount25_zero (w x y : Nat) : fgCount25 (fun _ => 0) w x y = 0 := by
  unfold fgCount25
  rw [List.countP_eq_zero]
  intro p hp
  simp

theorem refineVote_zero (e : Nat → Nat) (w h : Nat) :
    refineVote (fun _ => 0) e w h = fun _ => 0 := by
  funext idx
  unfold refineVote
  have h25 := fgCount25_zero w (idx % w) (idx / w)
  split
  · split
    · rw [h25]
      split
      · omega
      · split
        · rfl
        · rfl
    · rfl
  · rfl

theorem erodePass_zero (w h : Nat) : erodePass (fun _ => 0) w h = fun _ => 0 := by
  funext idx
  unfold erodePass
  split
  · split
    · rfl
    · rfl
  · rfl

theorem dilatePass_zero (w h : Nat) : dilatePass (fun _ => 0) w h = fun _ => 0 := by
  funext idx
  unfold dilatePass
  have h9 := fgCount9_zero w (idx % w) (idx / w)
  split
  · split
    · omega
    · rfl
  · rfl

theorem refineAlgorithmMask_zero (data : Nat → Nat) (w h : Nat) :
    refineAlgorithmMask data (fun _ => 0) w h = fun _ => 0 := by
  unfold refineAlgorithmMask smoothMaskEdges
  rw [refineVote_zero, erodePass_zero, dilatePass_zero]
  funext i
  simp

/-- C2 (amended): the uniform-image prediction holds exactly when the
border band is empty (width or height below 15): then no border pixel is
sampled, the background estimate is the NaN/undefined non-color, every
distance comparison is false, the region grower marks every pixel 0, and
the final alpha is 0 at every pixel.  (For uniform images with both
dimensions at least 15 the region grower marks every pixel 1 and the
pipeline keeps the original alpha everywhere; see
`C2_uniform_15x15_opaque`.) -/
theorem C2_uniform_small_image_transparent (data : Nat → Nat) (w h : Nat) (c : Color)
    (huni : ∀ i < w * h, data (4*i) = c.r ∧ data (4*i+1) = c.g ∧ data (4*i+2) = c.b)
    (hsmall : w < 15 ∨ h < 15) :
    (∀ i < w * h,
      createImprovedMask data w h (getDominantColor (getBorderColors data w h)) i = 0) ∧
    (∀ i < w * h, improvedAlgorithmCore data w h (4*i+3) = 0) := by
  have hbg : getDominantColor (getBorderColors data w h) = none := by
    rw [getBorderColors_empty data w h hsmall]
    rfl
  have hmask : createImprovedMask data w h (getDominantColor (getBorderColors data w h)) =
      fun _ => 0 := by
    rw [hbg]
    exact createImprovedMask_none data w h
  constructor
  · intro i hi
    rw [hmask]
  · intro i hi
    unfold improvedAlgorithmCore
    rw [hmask, refineAlgorithmMask_zero]
    unfold applyMaskWithFeathering
    rw [if_pos ⟨alpha_mod i, by rw [alpha_div i]; exact hi⟩]
    rw [if_pos rfl]

/-- C2 witness: the amended theorem applied to the spec's 4×4 all-(200,200,200)
example, instantiated at pixel 0. -/
theorem C2_witness :
    createImprovedMask dataU 4 4 (getDominantColor (getBorderColors dataU 4 4)) 0 = 0 ∧
    improvedAlgorithmCore dataU 4 4 (4*0+3) = 0 :=
  ⟨(C2_uniform_small_image_transparent dataU 4 4 ⟨200, 200, 200⟩
      (by decide) (Or.inl (by decide))).1 0 (by decide),
   (C2_uniform_small_image_transparent dataU 4 4 ⟨200, 200, 200⟩
      (by decide) (Or.inl (by decide))).2 0 (by decide)⟩

/-! ## C6: matte estimator -/

theorem sampleFg_empty (data trimap : Nat → Nat) (x y w h : Nat)
    (hfg : ∀ p ∈ winOffs 10,
      0 ≤ (y:Int) + p.1 - 10 → (y:Int) + p.1 - 10 < (h:Int) →
      0 ≤ (x:Int) + p.2 - 10 → (x:Int) + p.2 - 10 < (w:Int) →
      trimap ((((y:Int) + p.1 - 10) * w + ((x:Int) + p.2 - 10)).toNat) ≠ 255) :
    (sampleFgBgColors data trimap x y w h).1 = ⟨0, 0, 0⟩ := by
  unfold sampleFgBgColors
  have hinv : (((winOffs 10).foldl (sampleStep data trimap x y w h) ([], [])).1 :
      List Color) = [] := by
    refine foldl_pres_mem (P := fun acc : List Color × List Color => acc.1 = []) _ _ _ rfl ?_
    · intro acc p hp hacc
      unfold sampleStep
      split
      · rename_i hin
        rw [if_neg (hfg p hp hin.1 hin.2.1 hin.2.2.1 hin.2.2.2)]
        split
        · exact hacc
        · exact hacc
      · exact hacc
  dsimp only
  rw [hinv]
  rfl

theorem sampleBg_empty (data trimap : Nat → Nat) (x y w h : Nat)
    (hbg : ∀ p ∈ winOffs 10,
      0 ≤ (y:Int) + p.1 - 10 → (y:Int) + p.1 - 10 < (h:Int) →
      0 ≤ (x:Int) + p.2 - 10 → (x:Int) + p.2 - 10 < (w:Int) →
      trimap ((((y:Int) + p.1 - 10) * w + ((x:Int) + p.2 - 10)).toNat) ≠ 0) :
    (sampleFgBgColors data trimap x y w h).2 = ⟨255, 255, 255⟩ := by
  unfold sampleFgBgColors
  have hinv : (((winOffs 10).foldl (sampleStep data trimap x y w h) ([], [])).2 :
      List Color) = [] := by
    refine foldl_pres_mem (P := fun acc : List Color × List Color => acc.2 = []) _ _ _ rfl ?_
    · intro acc p hp hacc
      unfold sampleStep
      split
      · rename_i hin
        split
        · exact hacc
        · rw [if_neg (hbg p hp hin.1 hin.2.1 hin.2.2.1 hin.2.2.2)]
          exact hacc
      · exact hacc
  dsimp only
  rw [hinv]
  rfl

theorem computeAlpha_bounds (sq : Nat → ℚ) (r g b : Nat) (fg bgc : Color) :
    0 ≤ computeAlphaFromColors sq r g b fg bgc ∧
      computeAlphaFromColors sq r g b fg bgc ≤ 255 := by
  unfold computeAlphaFromColors
  dsimp only
  split
  · norm_num
  · exact ⟨le_max_left 0 _, max_le (by norm_num) (min_le_left _ _)⟩

theorem computeAlpha_total_lt_one (sq : Nat → ℚ) (hsq0 : sq 0 = 0)
    (hsqpos : ∀ n, 0 ≤ sq n) (hsq1 : ∀ n, 1 ≤ n → 1 ≤ sq n) (d1 d2 : Nat) :
    sq d1 + sq d2 < 1 ↔ d1 = 0 ∧ d2 = 0 := by
  constructor
  · intro hlt
    by_contra hcon
    rcases Decidable.em (d1 = 0) with h1 | h1
    · rcases Decidable.em (d2 = 0) with h2 | h2
      · exact hcon ⟨h1, h2⟩
      · have ha := hsq1 d2 (by omega)
        have hb := hsqpos d1
        linarith
    · have ha := hsq1 d1 (by omega)
      have hb := hsqpos d2
      linarith
  · rintro ⟨rfl, rfl⟩
    rw [hsq0]
    norm_num

/-- C6: for every unknown (128) trimap pixel in range, the stored matte
value is the floor of the twice-clamped matting equation applied to the
means sampled from the radius-10 window; the equation's value is always in
[0,255]; the total-distance-below-1 escape fires exactly when the pixel
color coincides with both means (both squared Euclidean distances 0) and
then yields 255; otherwise the value is `255*(1 - distToFg/total)`
clamped; an empty foreground sample set yields the mean black (0,0,0) and
an empty background sample set the mean white (255,255,255). -/
theorem C6_matte_estimator (sq : Nat → ℚ) (data trimap : Nat → Nat) (w h idx : Nat)
    (hsq0 : sq 0 = 0) (hsqpos : ∀ n, 0 ≤ sq n) (hsq1 : ∀ n, 1 ≤ n → 1 ≤ sq n)
    (h128 : trimap idx = 128) (hidx : idx < w * h) :
    (matteAlpha sq data trimap w h idx =
      Nat.floor (max 0 (min 255 (computeAlphaFromColors sq
        (data (4*idx)) (data (4*idx+1)) (data (4*idx+2))
        (sampleFgBgColors data trimap (idx % w) (idx / w) w h).1
        (sampleFgBgColors data trimap (idx % w) (idx / w) w h).2)))) ∧
    (∀ r g b : Nat, ∀ fg bgc : Color,
      0 ≤ computeAlphaFromColors sq r g b fg bgc ∧
      computeAlphaFromColors sq r g b fg bgc ≤ 255) ∧
    (∀ r g b : Nat, ∀ fg bgc : Color,
      (sq (edist2 r g b fg.r fg.g fg.b) + sq (edist2 r g b bgc.r bgc.g bgc.b) < 1 ↔
        edist2 r g b fg.r fg.g fg.b = 0 ∧ edist2 r g b bgc.r bgc.g bgc.b = 0) ∧
      (edist2 r g b fg.r fg.g fg.b = 0 ∧ edist2 r g b bgc.r bgc.g bgc.b = 0 →
        computeAlphaFromColors sq r g b fg bgc = 255) ∧
      (1 ≤ sq (edist2 r g b fg.r fg.g fg.b) + sq (edist2 r g b bgc.r bgc.g bgc.b) →
        computeAlphaFromColors sq r g b fg bgc =
          max 0 (min 255 (255 * (1 - sq (edist2 r g b fg.r fg.g fg.b) /
            (sq (edist2 r g b fg.r fg.g fg.b) + sq (edist2 r g b bgc.r bgc.g bgc.b))))))) ∧
    ((∀ p ∈ winOffs 10,
        0 ≤ (idx / w : Int) + p.1 - 10 → (idx / w : Int) + p.1 - 10 < (h:Int) →
        0 ≤ (idx % w : Int) + p.2 - 10 → (idx % w : Int) + p.2 - 10 < (w:Int) →
        trimap ((((idx / w : Int) + p.1 - 10) * w + ((idx % w : Int) + p.2 - 10)).toNat) ≠ 255) →
      (sampleFgBgColors data trimap (idx % w) (idx / w) w h).1 = ⟨0, 0, 0⟩) ∧
    ((∀ p ∈ winOffs 10,
        0 ≤ (idx / w : Int) + p.1 - 10 → (idx / w : Int) + p.1 - 10 < (h:Int) →
        0 ≤ (idx % w : Int) + p.2 - 10 → (idx % w : Int) + p.2 - 10 < (w:Int) →
        trimap ((((idx / w : Int) + p.1 - 10) * w + ((idx % w : Int) + p.2 - 10)).toNat) ≠ 0) →
      (sampleFgBgColors data trimap (idx % w) (idx / w) w h).2 = ⟨255, 255, 255⟩) := by
  refine ⟨?_, fun r g b fg bgc => computeAlpha_bounds sq r g b fg bgc, ?_, ?_, ?_⟩
  · unfold matteAlpha
    rw [h128]
    rw [if_neg (by omega), if_neg (by omega), if_pos ⟨rfl, hidx⟩]
  · intro r g b fg bgc
    refine ⟨computeAlpha_total_lt_one sq hsq0 hsqpos hsq1 _ _, ?_, ?_⟩
    · rintro ⟨h1, h2⟩
      unfold computeAlphaFromColors
      rw [if_pos]
      rw [h1, h2, hsq0]
      norm_num
    · intro hge
      unfold computeAlphaFromColors
      rw [if_neg (not_lt.mpr hge)]
  · exact sampleFg_empty data trimap (idx % w) (idx / w) w h
  · exact sampleBg_empty data trimap (idx % w) (idx / w) w h

/-- C6 witness: the characterization instantiated on a 1×1 all-unknown
trimap, where both sample sets are empty. -/
theorem C6_witness :
    matteAlpha sqW dataU triAllUnknown 1 1 0 =
      Nat.floor (max 0 (min 255 (computeAlphaFromColors sqW
        (dataU (4*0)) (dataU (4*0+1)) (dataU (4*0+2))
        (sampleFgBgColors dataU triAllUnknown (0 % 1) (0 / 1) 1 1).1
        (sampleFgBgColors dataU triAllUnknown (0 % 1) (0 / 1) 1 1).2))) :=
  (C6_matte_estimator sqW dataU triAllUnknown 1 1 0
    (by norm_num [sqW])
    (fun n => by unfold sqW; split <;> norm_num)
    (fun n hn => by unfold sqW; rw [if_neg (by omega)])
    (by decide) (by decide)).1

/-! ## C7: feathering -/

theorem featherAlpha_none (a : Nat) : featherAlpha a none = a := rfl

theorem featherAlpha_plateau (a : Nat) (q : ℚ) (hq : 2 ≤ q) :
    featherAlpha a (some q) = a := by
  simp only [featherAlpha]
  rw [if_neg (not_lt.mpr hq)]

theorem featherAlpha_near (a : Nat) (q : ℚ) (hq : q < 2) :
    featherAlpha a (some q) = Nat.floor ((a:ℚ) * (min 1 (q / 2 * (3/10) + 7/10))) := by
  simp only [featherAlpha]
  rw [if_pos hq]

theorem featherAlpha_le (a : Nat) (d : Option ℚ) : featherAlpha a d ≤ a := by
  cases d with
  | none => exact Nat.le_refl a
  | some q =>
      simp only [featherAlpha]
      split
      · calc Nat.floor ((a:ℚ) * (min 1 (q / 2 * (3/10) + 7/10)))
            ≤ Nat.floor ((a:ℚ) * 1) :=
              Nat.floor_mono (mul_le_mul_of_nonneg_left (min_le_left _ _) (Nat.cast_nonneg a))
          _ = a := by rw [mul_one, Nat.floor_natCast]
      · exact Nat.le_refl a

theorem featherAlpha_mono (a : Nat) (q1 q2 : ℚ) (h0 : 0 ≤ q1) (h12 : q1 ≤ q2) :
    featherAlpha a (some q1) ≤ featherAlpha a (some q2) := by
  by_cases h2 : q2 < 2
  · have h1 : q1 < 2 := lt_of_le_of_lt h12 h2
    simp only [featherAlpha]
    rw [if_pos h1, if_pos h2]
    apply Nat.floor_mono
    apply mul_le_mul_of_nonneg_left _ (Nat.cast_nonneg a)
    apply min_le_min (le_refl 1)
    linarith
  · rw [featherAlpha_plateau a q2 (not_lt.mp h2)]
    exact featherAlpha_le a (some q1)

theorem oadd_nonneg (d : Option ℚ) (inc : ℚ) (hd : ∀ q, d = some q → 0 ≤ q)
    (hinc : 0 ≤ inc) : ∀ q, oadd d inc = some q → 0 ≤ q := by
  cases d with
  | none => intro q hq; exact absurd hq (by simp [oadd])
  | some a =>
      intro q hq
      simp only [oadd, Option.some_inj] at hq
      have := hd a rfl
      rw [← hq]
      linarith

theorem dmInc_nonneg (s2 : ℚ) (hs2 : 0 ≤ s2) (p : Nat × Nat) : 0 ≤ dmInc s2 p := by
  unfold dmInc
  split
  · exact le_refl 0
  · split
    · exact zero_le_one
    · exact hs2

theorem dmMin_nonneg (dm : Nat → Option ℚ) (w x y : Nat) (s2 : ℚ) (hs2 : 0 ≤ s2)
    (hdm : ∀ i q, dm i = some q → 0 ≤ q) :
    ∀ q, (winOffs 1).foldl (dmMinStep dm w x y s2) none = some q → 0 ≤ q := by
  refine foldl_pres (P := fun md : Option ℚ => ∀ q, md = some q → 0 ≤ q) _ _ _ ?_ ?_
  · intro q hq
    exact absurd hq (by simp)
  · intro md p hmd
    unfold dmMinStep
    split
    · exact oadd_nonneg _ _ (hdm _) (dmInc_nonneg s2 hs2 p)
    · exact hmd

theorem dmRelaxPixel_nonneg (mask : Nat → Nat) (w : Nat) (s2 : ℚ) (hs2 : 0 ≤ s2)
    (dm : Nat → Option ℚ) (x y : Nat) (hdm : ∀ i q, dm i = some q → 0 ≤ q) :
    ∀ i q, dmRelaxPixel mask w s2 dm x y i = some q → 0 ≤ q := by
  unfold dmRelaxPixel
  split
  · intro i q
    unfold upd
    split
    · unfold ominB
      split
      · exact dmMin_nonneg dm w x y s2 hs2 hdm q
      · exact hdm _ q
    · exact hdm i q
  · exact hdm

theorem createDistanceMap_nonneg (mask : Nat → Nat) (w h : Nat) (s2 : ℚ)
    (hs2 : 0 ≤ s2) : ∀ i q, createDistanceMap mask w h s2 i = some q → 0 ≤ q := by
  unfold createDistanceMap
  refine foldl_pres (P := fun dm : Nat → Option ℚ => ∀ i q, dm i = some q → 0 ≤ q)
    _ _ _ ?_ ?_
  · intro i q
    unfold dmInit
    split
    · intro hq
      simp only [Option.some_inj] at hq
      rw [← hq]
    · intro hq
      exact absurd hq (by simp)
  · intro dm b hdm
    unfold dmSweep
    refine foldl_pres (P := fun dm : Nat → Option ℚ => ∀ i q, dm i = some q → 0 ≤ q)
      _ _ _ hdm ?_
    intro dm2 y hdm2
    refine foldl_pres (P := fun dm : Nat → Option ℚ => ∀ i q, dm i = some q → 0 ≤ q)
      _ _ _ hdm2 ?_
    intro dm3 x hdm3
    exact dmRelaxPixel_nonneg mask w s2 hs2 dm3 x y hdm3

/-- C7: on an alpha channel of an in-range pixel, `applyMaskWithSmoothAlpha`
forces alpha 0 for mask-0 pixels and otherwise feathers the original alpha
by the pixel's distance-map value; distance-map values are nonnegative;
within the feather radius the alpha is the floor of the original times
`min 1 (d/2 * 0.3 + 0.7)`; at distance ≥ 2 (radius hit exactly when the
multiplier reaches 1) or unreachable distance it is untouched; the result
never exceeds the original alpha and, for a fixed original alpha, is
monotone nondecreasing in the distance. -/
theorem C7_feathering_monotone (data mask : Nat → Nat) (w h : Nat) (s2 : ℚ)
    (hs2 : 0 ≤ s2) (j : Nat) (hch : j % 4 = 3) (hj : j / 4 < w * h) :
    (mask (j / 4) = 0 → applyMaskWithSmoothAlpha data mask w h s2 j = 0) ∧
    (mask (j / 4) ≠ 0 → applyMaskWithSmoothAlpha data mask w h s2 j =
      featherAlpha (data j) (createDistanceMap mask w h s2 (j / 4))) ∧
    (∀ q, createDistanceMap mask w h s2 (j / 4) = some q → 0 ≤ q) ∧
    (∀ a : Nat, ∀ q : ℚ, q < 2 →
      featherAlpha a (some q) = Nat.floor ((a:ℚ) * (min 1 (q / 2 * (3/10) + 7/10)))) ∧
    (∀ a : Nat, ∀ q : ℚ, 2 ≤ q → featherAlpha a (some q) = a) ∧
    (∀ a : Nat, featherAlpha a none = a) ∧
    (∀ a : Nat, ∀ d : Option ℚ, featherAlpha a d ≤ a) ∧
    (∀ a : Nat, ∀ q1 q2 : ℚ, 0 ≤ q1 → q1 ≤ q2 →
      featherAlpha a (some q1) ≤ featherAlpha a (some q2)) := by
  refine ⟨?_, ?_, createDistanceMap_nonneg mask w h s2 hs2 (j / 4),
    featherAlpha_near, featherAlpha_plateau, featherAlpha_none,
    featherAlpha_le, featherAlpha_mono⟩
  · intro h0
    unfold applyMaskWithSmoothAlpha
    rw [if_pos ⟨hch, hj⟩, if_pos h0]
  · intro h0
    unfold applyMaskWithSmoothAlpha
    rw [if_pos ⟨hch, hj⟩, if_neg h0]

/-- C7 witness: the feathering characterization instantiated on the 4×4
half mask with `s2 = 3/2`, at the alpha channel of pixel 0 (foreground). -/
theorem C7_witness :
    applyMaskWithSmoothAlpha dataU halfMask 4 4 (3/2) 3 =
      featherAlpha (dataU 3) (createDistanceMap halfMask 4 4 (3/2) (3 / 4)) :=
  (C7_feathering_monotone dataU halfMask 4 4 (3/2) (by norm_num) 3
    (by decide) (by decide)).2.1 (by decide)
